import Mathlib

/-!
# Verification of the leetcode_ranking leaderboard synchronization pipeline

A shallow embedding, in Lean 4, of the core of the `leetcode_ranking` Go
repository, together with theorems settling the frozen specification claims.

Embedded components (with their source locations):

* string helpers `strings.TrimSpace` and `sort.Strings` used by the service;
* the GraphQL response data model (`internal/service`: `ResponseGlobal`,
  `ResponseUser`, `RankingNode`, `MatchedUser`, ...);
* `LeetCodeClient.doGraphQL` and `userService.fetchRankingPage`
  (transport / decode / upstream error behaviour), with the outcome of the
  single HTTP round trip supplied by an oracle value;
* `userService.extractUsernamesFromPage`;
* `userService.fetchAndConvertUser` and
  `userService.processUsersConcurrently` (the bounded worker pool is
  determinized: every queued username is processed exactly once, successes
  are collected and per-identity errors are only counted and logged, which
  is the order-normalized behaviour of the fan-out/fan-in channels);
* `Storage.UpsertUserData` (`internal/storage/storage.go`) against a
  relational store with the schema of `db/migrations` (permanent table
  `user_data` with surrogate id, created_at/updated_at and the
  `trg_user_data_updated` trigger; staging table with `username` UNIQUE),
  with the transaction modelled explicitly: statements act on a
  transaction-local view and only `Commit` publishes it, any earlier error
  leaves the committed state untouched (`defer tx.Rollback()`);
* `userService.SyncLeaderboard`, `SyncOn`, `SyncOff`, `GetSyncStatus` and
  the HTTP handler `Handler.SyncLeaderboard`, with page-fetch outcomes,
  per-identity fetch outcomes and upsert faults supplied by an environment,
  and a stop request modelled as a `SyncOff` observed before a chosen
  iteration of the page loop (the flag is polled at the top of each
  iteration).
-/

namespace LeetcodeRanking

/-! ## String helpers

`trimSpace` embeds Go `strings.TrimSpace`: strip leading and trailing
whitespace characters.  `sortStrings` embeds Go `sort.Strings`, which sorts
in byte-lexicographic order; on UTF-8 data this coincides with
code-point-lexicographic order, embedded here as `strLe` on the character
lists. -/

def trimSpace (s : String) : String :=
  ⟨((s.data.dropWhile Char.isWhitespace).reverse.dropWhile Char.isWhitespace).reverse⟩

def leCharList : List Char → List Char → Bool
  | [], _ => true
  | _ :: _, [] => false
  | c :: cs, d :: ds => if c < d then true else if d < c then false else leCharList cs ds

def strLe (a b : String) : Prop := leCharList a.data b.data = true

instance decStrLe : DecidableRel strLe :=
  fun a b => inferInstanceAs (Decidable (leCharList a.data b.data = true))

def sortStrings (l : List String) : List String := List.insertionSort strLe l

/-! ## GraphQL response data model

Mirrors the consolidated response types of `internal/service` (part of the
service package): `GraphQLError`, `Profile`, `Badge`, `User`, `ACStat`,
`SubmitStats`, `MatchedUser`, `RankingNode`, `GlobalRanking`,
`ResponseUser`, `ResponseGlobal`, and the persisted-batch record
`models.StageUserDataParams`.  Go `int`/`int32` fields are embedded as
`Int`. -/

structure GraphQLError where
  message : String
deriving DecidableEq, Repr

structure Profile where
  userSlug : String
  userAvatar : String
  countryCode : String
  countryName : String
  realName : String
  typename : String
deriving DecidableEq, Repr

structure Badge where
  displayName : String
  icon : String
  typename : String
deriving DecidableEq, Repr

structure User where
  username : String
  nameColor : Option String
  activeBadge : Option Badge
  profile : Profile
  typename : String
deriving DecidableEq, Repr

structure ACStat where
  difficulty : String
  count : Int
  submissions : Int
deriving DecidableEq, Repr

structure SubmitStats where
  acSubmissionNum : List ACStat
  totalSubmissionNum : List ACStat
deriving DecidableEq, Repr

structure MatchedUser where
  submitStats : SubmitStats
  profile : Profile
deriving DecidableEq, Repr

structure RankingNode where
  ranking : String
  currentRating : String
  currentGlobalRank : Int
  dataRegion : String
  user : User
  typename : String
deriving DecidableEq, Repr

structure GlobalRanking where
  totalUsers : Int
  totalPages : Int
  userPerPage : Int
  rankingNodes : List RankingNode
  typename : String
deriving DecidableEq, Repr

structure QuestionCount where
  difficulty : String
  count : Int
deriving DecidableEq, Repr

structure ResponseUserData where
  allQuestionsCount : List QuestionCount
  matchedUser : Option MatchedUser
deriving DecidableEq, Repr

structure ResponseUser where
  data : ResponseUserData
  errors : List GraphQLError
deriving DecidableEq, Repr

structure ResponseGlobalData where
  globalRanking : GlobalRanking
deriving DecidableEq, Repr

structure ResponseGlobal where
  data : ResponseGlobalData
  errors : List GraphQLError
deriving DecidableEq, Repr

structure StageUserDataParams where
  username : String
  userSlug : String
  userAvatar : String
  countryCode : String
  countryName : String
  realName : String
  typename : String
  totalProblemsSolved : Int
  totalSubmissions : Int
deriving DecidableEq, Repr

/-! ## HTTP transport and `LeetCodeClient.doGraphQL`

One GraphQL round trip is summarized by an `HTTPOutcome` oracle value: the
`http.Client.Do` call either fails on the network, or yields a response
with an HTTP status code and a body.  The body either fails to decompress
(`decompressResponse` error), or decompresses to a payload that is either
malformed JSON or a well-formed envelope of type `α`.

`doGraphQL` follows the source order exactly: network error first, then
decompression, then the `StatusCode != 200` check, then `json.Unmarshal`.
The source returns untyped wrapped errors; following the specification's
taxonomy we tag the "http do" and "non-200" errors as transport errors and
the "decompress" and "unmarshal" errors as decode (malformed payload)
errors. -/

inductive BodyOutcome (α : Type) where
  | decompressFail (msg : String)
  | malformed (msg : String)
  | wellFormed (out : α)
deriving DecidableEq, Repr

inductive HTTPOutcome (α : Type) where
  | netFail (msg : String)
  | resp (status : Int) (body : BodyOutcome α)
deriving DecidableEq, Repr

inductive DoGraphQLErr where
  | transport (msg : String)
  | decode (msg : String)
deriving DecidableEq, Repr

def doGraphQL {α : Type} (outcome : HTTPOutcome α) : Except DoGraphQLErr α :=
  match outcome with
  | .netFail msg => .error (.transport ("http do: " ++ msg))
  | .resp status body =>
    match body with
    | .decompressFail msg => .error (.decode ("decompress: " ++ msg))
    | .malformed msg =>
      if status ≠ 200 then .error (.transport ("non-200: " ++ toString status))
      else .error (.decode ("unmarshal: " ++ msg))
    | .wellFormed out =>
      if status ≠ 200 then .error (.transport ("non-200: " ++ toString status))
      else .ok out

/-! ## `userService.fetchRankingPage`

Runs the global-ranking query through `doGraphQL` and additionally fails
when the decoded envelope carries a non-empty GraphQL error list (an
upstream error even under HTTP 200). -/

inductive FetchPageErr where
  | transport (msg : String)
  | decode (msg : String)
  | upstream (errs : List GraphQLError)
deriving DecidableEq, Repr

def fetchRankingPage (outcome : HTTPOutcome ResponseGlobal) :
    Except FetchPageErr ResponseGlobal :=
  match doGraphQL outcome with
  | .error (.transport msg) => .error (.transport msg)
  | .error (.decode msg) => .error (.decode msg)
  | .ok out =>
    if out.errors ≠ [] then .error (.upstream out.errors)
    else .ok out

/-! ## `userService.extractUsernamesFromPage`

For each ranking node of the page: trim the embedded username, drop it if
the trimmed form is empty, record it only on first occurrence (the `seen`
map), and finally `sort.Strings` the collected list. -/

def collectStep (acc : List String) (node : RankingNode) : List String :=
  if trimSpace node.user.username = "" then acc
  else if trimSpace node.user.username ∈ acc then acc
  else acc ++ [trimSpace node.user.username]

def collectUsernames (nodes : List RankingNode) : List String :=
  nodes.foldl collectStep []

def extractUsernamesFromPage (pageResp : ResponseGlobal) : List String :=
  sortStrings (collectUsernames pageResp.data.globalRanking.rankingNodes)

/-! ## `userService.fetchAndConvertUser`

The per-identity enrichment fetch.  The outcome of the single
`doGraphQL(queryMatchedUser, ...)` round trip for a username is supplied by
the oracle `userHTTP`.  Source order: trim the username and reject an empty
one, run the query, reject a non-empty GraphQL error list, reject an absent
`matchedUser` (`errors_.ErrUserNotAvailable`), locate the AC submission
entry with difficulty "All" (first match), reject its absence, and
otherwise flatten profile and "All" counters into `StageUserDataParams`. -/

inductive FetchUserErr where
  | usernameRequired
  | fetchFailed (err : DoGraphQLErr)
  | graphqlErrors (errs : List GraphQLError)
  | userNotAvailable
  | missingAllStats
deriving DecidableEq, Repr

def fetchAndConvertUser (userHTTP : String → HTTPOutcome ResponseUser)
    (username : String) : Except FetchUserErr StageUserDataParams :=
  let username := trimSpace username
  if username = "" then .error .usernameRequired
  else
    match doGraphQL (userHTTP username) with
    | .error e => .error (.fetchFailed e)
    | .ok out =>
      if out.errors ≠ [] then .error (.graphqlErrors out.errors)
      else
        match out.data.matchedUser with
        | none => .error .userNotAvailable
        | some matchedUser =>
          match matchedUser.submitStats.acSubmissionNum.find?
              (fun stat => stat.difficulty == "All") with
          | none => .error .missingAllStats
          | some acAll =>
            .ok
              { username := username
                userSlug := matchedUser.profile.userSlug
                userAvatar := matchedUser.profile.userAvatar
                countryCode := matchedUser.profile.countryCode
                countryName := matchedUser.profile.countryName
                realName := matchedUser.profile.realName
                typename := matchedUser.profile.typename
                totalProblemsSolved := acAll.count
                totalSubmissions := acAll.submissions }

/-! ## `userService.processUsersConcurrently`

The bounded worker pool: every queued username is handed to
`fetchAndConvertUser` exactly once; successes are collected on the results
channel, per-identity errors on the errors channel.  The error list is only
counted for a warning log line; the function always returns `(users, nil)`.
The embedding determinizes the fan-in to queue order (worker count and
politeness delay affect only timing, not which usernames succeed), so the
collected successes are folded in list order. -/

def processUsersStep (userHTTP : String → HTTPOutcome ResponseUser)
    (acc : List StageUserDataParams × List FetchUserErr) (username : String) :
    List StageUserDataParams × List FetchUserErr :=
  match fetchAndConvertUser userHTTP username with
  | .ok user => (acc.1 ++ [user], acc.2)
  | .error e => (acc.1, acc.2 ++ [e])

def processUsersConcurrently (userHTTP : String → HTTPOutcome ResponseUser)
    (usernames : List String) :
    List StageUserDataParams × Option String :=
  let collected := usernames.foldl (processUsersStep userHTTP) ([], [])
  (collected.1, none)

/-- `true` exactly when `fetchAndConvertUser` succeeds for this username. -/
def fetchUserOk (userHTTP : String → HTTPOutcome ResponseUser)
    (username : String) : Bool :=
  match fetchAndConvertUser userHTTP username with
  | .ok _ => true
  | .error _ => false

/-! ## `Storage.UpsertUserData` and the persisted schema

The permanent table `user_data` (migration `000001`) is keyed uniquely on
`username` and additionally carries the surrogate `id` (SERIAL) and the
`created_at` / `updated_at` timestamps; the trigger `trg_user_data_updated`
sets `updated_at = NOW()` on every UPDATE.  The staging table carries the
nine staged columns with `username` UNIQUE and no surrogate key.

`upsertUserData` embeds `Storage.UpsertUserData`: begin a transaction,
TRUNCATE staging, COPY the batch into staging, run the single
INSERT ... SELECT ... ON CONFLICT (username) DO UPDATE merge, commit.  Each
step's possible failure is driven by an `UpsertFaults` oracle; a COPY of a
batch with a repeated username violates the staging UNIQUE constraint and
surfaces when the buffered COPY is flushed.  All statements act on the
transaction-local view and only the final commit publishes it; any earlier
error returns with the committed store untouched (`defer tx.Rollback()`).
`now` is the transaction timestamp used by `NOW()`. -/

structure UserDatum where
  id : Nat
  username : String
  userSlug : String
  userAvatar : String
  countryCode : String
  countryName : String
  realName : String
  typename : String
  totalProblemsSolved : Int
  totalSubmissions : Int
  createdAt : Nat
  updatedAt : Nat
deriving DecidableEq, Repr

structure DBState where
  userData : List UserDatum
  staging : List StageUserDataParams
  nextId : Nat
deriving DecidableEq, Repr

/-- The DO UPDATE arm of the merge: overwrite the eight non-key staged
columns, keep `id`, `username` and `createdAt`; the update trigger sets
`updatedAt` to the transaction time. -/
def mergedRow (old : UserDatum) (r : StageUserDataParams) (now : Nat) : UserDatum :=
  { old with
    userSlug := r.userSlug
    userAvatar := r.userAvatar
    countryCode := r.countryCode
    countryName := r.countryName
    realName := r.realName
    typename := r.typename
    totalProblemsSolved := r.totalProblemsSolved
    totalSubmissions := r.totalSubmissions
    updatedAt := now }

/-- The INSERT arm of the merge: a fresh surrogate id and both timestamps
defaulted to the transaction time. -/
def insertedRow (id : Nat) (r : StageUserDataParams) (now : Nat) : UserDatum :=
  { id := id
    username := r.username
    userSlug := r.userSlug
    userAvatar := r.userAvatar
    countryCode := r.countryCode
    countryName := r.countryName
    realName := r.realName
    typename := r.typename
    totalProblemsSolved := r.totalProblemsSolved
    totalSubmissions := r.totalSubmissions
    createdAt := now
    updatedAt := now }

/-- One staged row of the merge statement: update on username conflict,
insert otherwise. -/
def upsertRow (now : Nat) (table : List UserDatum × Nat) (r : StageUserDataParams) :
    List UserDatum × Nat :=
  if table.1.any (fun row => row.username == r.username) then
    (table.1.map (fun row =>
      if row.username == r.username then mergedRow row r now else row), table.2)
  else
    (table.1 ++ [insertedRow table.2 r now], table.2 + 1)

/-- The set-based merge statement applied to the staged batch. -/
def mergeStaging (now : Nat) (rows : List UserDatum) (nextId : Nat)
    (staging : List StageUserDataParams) : List UserDatum × Nat :=
  staging.foldl (upsertRow now) (rows, nextId)

structure UpsertFaults where
  beginFail : Bool
  truncateFail : Bool
  prepareFail : Bool
  copyFail : Option Nat
  finalizeFail : Bool
  closeFail : Bool
  mergeFail : Bool
  commitFail : Bool
deriving DecidableEq, Repr

def noFaults : UpsertFaults :=
  { beginFail := false, truncateFail := false, prepareFail := false,
    copyFail := none, finalizeFail := false, closeFail := false,
    mergeFail := false, commitFail := false }

/-- The steps of `Storage.UpsertUserData` from the flush of the buffered
COPY onwards (the staging UNIQUE constraint is checked when the COPY is
flushed, then the merge statement and the commit run). -/
def upsertUserDataTail (f : UpsertFaults) (now : Nat)
    (records : List StageUserDataParams) (db : DBState) :
    Except String Unit × DBState :=
  if ¬ (records.map (fun r => r.username)).Nodup then
    (.error "finalize copyin", db)
  else if f.finalizeFail then (.error "finalize copyin", db)
  else if f.closeFail then (.error "close stmt", db)
  else if f.mergeFail then (.error "merge into actual table", db)
  else if f.commitFail then (.error "commit tx", db)
  else
    let merged := mergeStaging now db.userData db.nextId records
    (.ok (), { userData := merged.1, staging := records, nextId := merged.2 })

def upsertUserData (f : UpsertFaults) (now : Nat)
    (records : List StageUserDataParams) (db : DBState) :
    Except String Unit × DBState :=
  if f.beginFail then (.error "begin tx", db)
  else if f.truncateFail then (.error "truncate staging", db)
  else if f.prepareFail then (.error "prepare copyin", db)
  else
    match f.copyFail with
    | some i =>
      if i < records.length then (.error "copyin exec", db)
      else upsertUserDataTail f now records db
    | none => upsertUserDataTail f now records db

/-- First permanent-store row with the given username. -/
def findRow (rows : List UserDatum) (u : String) : Option UserDatum :=
  rows.find? (fun row => row.username == u)

/-- The staged (non-key) columns of a permanent row agree with a batch
record, and the row is keyed by the record's username. -/
def rowDataMatches (row : UserDatum) (r : StageUserDataParams) : Prop :=
  row.username = r.username ∧
  row.userSlug = r.userSlug ∧
  row.userAvatar = r.userAvatar ∧
  row.countryCode = r.countryCode ∧
  row.countryName = r.countryName ∧
  row.realName = r.realName ∧
  row.typename = r.typename ∧
  row.totalProblemsSolved = r.totalProblemsSolved ∧
  row.totalSubmissions = r.totalSubmissions

/-! ## `userService` controller state, `SyncOn` / `SyncOff` / `GetSyncStatus`

The `userService` struct carries the run-state fields `sync` (the admission
flag) and `syncingPage` (the page cursor). -/

structure SyncState where
  sync : Bool
  syncingPage : Int
deriving DecidableEq, Repr

structure GetSyncStatusResponse where
  isOn : Bool
  page : Int
deriving DecidableEq, Repr

def syncOn (s : SyncState) : SyncState := { s with sync := true }

def syncOff (s : SyncState) : SyncState := { s with sync := false }

def getSyncStatus (s : SyncState) : GetSyncStatusResponse :=
  { isOn := s.sync, page := s.syncingPage }

/-! ## `userService.SyncLeaderboard`

The run environment supplies, per page number, the outcome of the
`fetchRankingPage` HTTP round trip, per username the outcome of the
per-identity round trip, and per page the fault oracle and transaction
timestamp of that page's `UpsertUserData` call.  A stop request (an
external `SyncOff`) is modelled by `stopAt`: the flag write becomes visible
immediately before the loop's condition is evaluated for that page number
(the source polls `s.sync` at the top of each iteration and nothing inside
the loop writes it).

`SyncOptions` mirrors the Go struct; `delay`, `workers` and `batchSize`
only shape timing and concurrency width, which the embedding determinizes,
so only their normalization is retained where it matters (`startPage`).

The loop is embedded with explicit fuel; `syncLeaderboard` passes fuel that
exceeds the iteration count of the Go loop, so the fuel never runs out
before the loop's own exit condition fires. -/

structure SyncOptions where
  startPage : Int
  pages : Int
  workers : Int
  delay : Int
  batchSize : Int
deriving DecidableEq, Repr

structure SyncEnv where
  pageHTTP : Int → HTTPOutcome ResponseGlobal
  userHTTP : String → HTTPOutcome ResponseUser
  upsertFaults : Int → UpsertFaults
  txTime : Int → Nat

/-- One visited page: the page number and whether its fetch succeeded
(`false`: the page was skipped with a log line and the loop continued). -/
structure PageVisit where
  page : Int
  fetched : Bool
deriving DecidableEq, Repr

def normalizeStartPage (startPage : Int) : Int :=
  if startPage < 1 then 1 else startPage

/-- End page of the run: `totalPages`, capped by
`startPage + pages - 1` when the `pages` option is positive. -/
def effectiveEndPage (startPage pages totalPages : Int) : Int :=
  if pages > 0 ∧ startPage + pages - 1 < totalPages then startPage + pages - 1
  else totalPages

def syncLoop (env : SyncEnv) (stopAt : Option Int) (startPage endPage : Int)
    (firstPage : ResponseGlobal) :
    Nat → Int → SyncState → DBState → List PageVisit →
    SyncState × DBState × List PageVisit
  | 0, _, st, db, visited => (st, db, visited)
  | fuel + 1, currentPage, st, db, visited =>
    let st := if stopAt = some currentPage then syncOff st else st
    if st.sync ∧ currentPage ≤ endPage then
      let st := { st with syncingPage := currentPage }
      let pageRes : Except FetchPageErr ResponseGlobal :=
        if currentPage = startPage then .ok firstPage
        else fetchRankingPage (env.pageHTTP currentPage)
      match pageRes with
      | .error _ =>
        syncLoop env stopAt startPage endPage firstPage fuel (currentPage + 1)
          st db (visited ++ [{ page := currentPage, fetched := false }])
      | .ok page =>
        let usernames := extractUsernamesFromPage page
        let users := (processUsersConcurrently env.userHTTP usernames).1
        let db :=
          if users ≠ [] then
            (upsertUserData (env.upsertFaults currentPage)
              (env.txTime currentPage) users db).2
          else db
        syncLoop env stopAt startPage endPage firstPage fuel (currentPage + 1)
          st db (visited ++ [{ page := currentPage, fetched := true }])
    else (st, db, visited)

structure SyncRunResult where
  state : SyncState
  db : DBState
  visited : List PageVisit
  result : Except String Unit
deriving Repr

def syncLeaderboard (env : SyncEnv) (stopAt : Option Int) (opts : SyncOptions)
    (st : SyncState) (db : DBState) : SyncRunResult :=
  let startPage := normalizeStartPage opts.startPage
  match fetchRankingPage (env.pageHTTP startPage) with
  | .error _ => { state := st, db := db, visited := [], result := .error "fetch first page" }
  | .ok firstPage =>
    let totalPages := firstPage.data.globalRanking.totalPages
    let endPage := effectiveEndPage startPage opts.pages totalPages
    let fuel := (endPage + 2 - startPage).toNat
    let out := syncLoop env stopAt startPage endPage firstPage fuel startPage st db []
    { state := out.1, db := out.2.1, visited := out.2.2, result := .ok () }

/-! ## `Handler.SyncLeaderboard` admission check

The HTTP start handler: with a parsed request in hand it queries
`GetSyncStatus` and, if a run is already on, answers 400 "syncing is
already on" without touching the service; otherwise it calls `SyncOn` and
launches the run goroutine. -/

structure StartSyncingReq where
  page : Int
deriving DecidableEq, Repr

inductive HandlerResult where
  | ok (msg : String)
  | badRequest (msg : String)
deriving DecidableEq, Repr

def handlerSyncLeaderboard (st : SyncState) (req : StartSyncingReq) :
    SyncState × HandlerResult :=
  if (getSyncStatus st).isOn then
    (st, .badRequest "syncing is already on")
  else
    (syncOn st, .ok "syncing started")

/-! ## Observation helpers and concrete inputs

Classifier predicates over run outcomes, the page range of a run, and
concrete oracle values used to evaluate the embedded code on specific
inputs. -/

def fetchOk (env : SyncEnv) (p : Int) : Bool :=
  match fetchRankingPage (env.pageHTTP p) with
  | .ok _ => true
  | .error _ => false

def pageRange (s e : Int) : List Int :=
  (List.range (e + 1 - s).toNat).map (fun (i : Nat) => s + (i : Int))

def isTransportErr (r : Except FetchPageErr ResponseGlobal) : Bool :=
  match r with
  | .error (.transport _) => true
  | _ => false

def is2xxResp (o : HTTPOutcome ResponseGlobal) : Bool :=
  match o with
  | .resp s _ => 200 ≤ s && s < 300
  | _ => false

def isNetFail (o : HTTPOutcome ResponseGlobal) : Bool :=
  match o with
  | .netFail _ => true
  | _ => false

/-- A well-formed ranking page envelope with the given page count and no
ranking entries. -/
def rankingPage (t : Int) : ResponseGlobal :=
  { data := { globalRanking :=
      { totalUsers := 25 * t, totalPages := t, userPerPage := 25,
        rankingNodes := [], typename := "GlobalRankingNode" } },
    errors := [] }

def sampleRow : UserDatum :=
  { id := 1, username := "alice", userSlug := "alice-old", userAvatar := "old.png",
    countryCode := "US", countryName := "United States", realName := "Alice",
    typename := "UserNode", totalProblemsSolved := 10, totalSubmissions := 20,
    createdAt := 0, updatedAt := 0 }

def sampleRecord : StageUserDataParams :=
  { username := "alice", userSlug := "alice", userAvatar := "new.png",
    countryCode := "US", countryName := "United States", realName := "Alice",
    typename := "UserNode", totalProblemsSolved := 11, totalSubmissions := 22 }

def sampleDB : DBState := { userData := [sampleRow], staging := [], nextId := 2 }

def sampleBatch : List StageUserDataParams := [sampleRecord]

def mergeFailFaults : UpsertFaults := { noFaults with mergeFail := true }

def emptyDBState : DBState := { userData := [], staging := [], nextId := 1 }

def startedState : SyncState := { sync := true, syncingPage := 0 }

/-- Environment of a clean one-page run: every page fetch yields a
well-formed single-page envelope, no store faults. -/
def onePageEnv : SyncEnv :=
  { pageHTTP := fun _ => .resp 200 (.wellFormed (rankingPage 1)),
    userHTTP := fun _ => .netFail "not used by this run",
    upsertFaults := fun _ => noFaults,
    txTime := fun _ => 0 }

def defaultOpts : SyncOptions :=
  { startPage := 1, pages := 0, workers := 4, delay := 800, batchSize := 100 }

/-- Environment of a three-page run whose page 2 fetch fails on the
network. -/
def pageTwoFailsEnv : SyncEnv :=
  { pageHTTP := fun p =>
      if p = 2 then .netFail "connection reset"
      else .resp 200 (.wellFormed (rankingPage 3)),
    userHTTP := fun _ => .netFail "not used by this run",
    upsertFaults := fun _ => noFaults,
    txTime := fun _ => 0 }

/-- Environment of a five-page upstream used for the page-bound check. -/
def fivePagesEnv : SyncEnv :=
  { pageHTTP := fun _ => .resp 200 (.wellFormed (rankingPage 5)),
    userHTTP := fun _ => .netFail "not used by this run",
    upsertFaults := fun _ => noFaults,
    txTime := fun _ => 0 }

def boundedOpts : SyncOptions :=
  { startPage := 2, pages := 2, workers := 3, delay := 800, batchSize := 100 }

/-- An HTTP outcome with a 2xx (but not 200) status and a well-formed
error-free envelope. -/
def status204Outcome : HTTPOutcome ResponseGlobal :=
  .resp 204 (.wellFormed (rankingPage 1))

/-! ## Lemma library

Support lemmas, followed by the claim theorems. -/

theorem leCharList_total (l₁ l₂ : List Char) :
    leCharList l₁ l₂ = true ∨ leCharList l₂ l₁ = true := by
  induction l₁ generalizing l₂ with
  | nil => left; rfl
  | cons c cs ih =>
    cases l₂ with
    | nil => right; rfl
    | cons d ds =>
      rcases lt_trichotomy c d with h | h | h
      · left; simp [leCharList, h]
      · subst h
        rcases ih ds with h' | h'
        · left; simp [leCharList, lt_irrefl, h']
        · right; simp [leCharList, lt_irrefl, h']
      · right; simp [leCharList, h]

theorem leCharList_trans {l₁ l₂ l₃ : List Char}
    (h₁ : leCharList l₁ l₂ = true) (h₂ : leCharList l₂ l₃ = true) :
    leCharList l₁ l₃ = true := by
  induction l₁ generalizing l₂ l₃ with
  | nil => rfl
  | cons c cs ih =>
    cases l₂ with
    | nil => simp [leCharList] at h₁
    | cons d ds =>
      cases l₃ with
      | nil => simp [leCharList] at h₂
      | cons e es =>
        rcases lt_trichotomy c d with hcd | hcd | hcd
        · rcases lt_trichotomy d e with hde | hde | hde
          · simp [leCharList, lt_trans hcd hde]
          · subst hde; simp [leCharList, hcd]
          · simp [leCharList, hde, asymm hde] at h₂
        · subst hcd
          rcases lt_trichotomy c e with hce | hce | hce
          · simp [leCharList, hce]
          · subst hce
            simp only [leCharList, lt_irrefl, if_false] at h₁ h₂ ⊢
            exact ih h₁ h₂
          · simp [leCharList, hce, asymm hce] at h₂
        · simp [leCharList, hcd, asymm hcd] at h₁

instance : IsTotal String strLe := ⟨fun a b => leCharList_total a.data b.data⟩

instance : IsTrans String strLe := ⟨fun _ _ _ h₁ h₂ => leCharList_trans h₁ h₂⟩


theorem sortStrings_sorted (l : List String) : (sortStrings l).Sorted strLe :=
  List.sorted_insertionSort strLe l

theorem sortStrings_perm (l : List String) : List.Perm (sortStrings l) l :=
  List.perm_insertionSort strLe l

theorem sortStrings_nodup {l : List String} (h : l.Nodup) : (sortStrings l).Nodup :=
  (sortStrings_perm l).nodup_iff.mpr h

theorem mem_sortStrings {l : List String} {u : String} : u ∈ sortStrings l ↔ u ∈ l :=
  (sortStrings_perm l).mem_iff

/-! ### Username extraction -/

theorem collectStep_nodup {acc : List String} (node : RankingNode)
    (h : acc.Nodup) : (collectStep acc node).Nodup := by
  unfold collectStep
  split
  · exact h
  · split
    · exact h
    · simp_all [List.nodup_append]

theorem collectFold_nodup (nodes : List RankingNode) :
    ∀ acc : List String, acc.Nodup → (nodes.foldl collectStep acc).Nodup := by
  induction nodes with
  | nil => intro acc h; exact h
  | cons n ns ih => intro acc h; exact ih _ (collectStep_nodup n h)

theorem mem_collectStep {u : String} {acc : List String} {node : RankingNode} :
    u ∈ collectStep acc node ↔
      u ∈ acc ∨ (u ≠ "" ∧ trimSpace node.user.username = u) := by
  unfold collectStep
  split
  next hcond => simp [hcond, eq_comm]
  next hcond =>
    split
    next hmem =>
      constructor
      · exact fun h => Or.inl h
      · rintro (h | ⟨hne, heq⟩)
        · exact h
        · exact heq ▸ hmem
    next hmem =>
      simp only [List.mem_append, List.mem_singleton]
      constructor
      · rintro (h | h)
        · exact Or.inl h
        · subst h
          exact Or.inr ⟨hcond, rfl⟩
      · rintro (h | ⟨hne, heq⟩)
        · exact Or.inl h
        · exact Or.inr heq.symm

theorem mem_collectFold (nodes : List RankingNode) :
    ∀ (acc : List String) (u : String),
      u ∈ nodes.foldl collectStep acc ↔
        u ∈ acc ∨ (u ≠ "" ∧ ∃ node ∈ nodes, trimSpace node.user.username = u) := by
  induction nodes with
  | nil => intro acc u; simp
  | cons n ns ih =>
    intro acc u
    rw [List.foldl_cons, ih, mem_collectStep]
    constructor
    · rintro ((h | ⟨hne, heq⟩) | ⟨hne, node, hnode, heq⟩)
      · exact Or.inl h
      · exact Or.inr ⟨hne, n, List.mem_cons_self n ns, heq⟩
      · exact Or.inr ⟨hne, node, List.mem_cons_of_mem n hnode, heq⟩
    · rintro (h | ⟨hne, node, hnode, heq⟩)
      · exact Or.inl (Or.inl h)
      · rcases List.mem_cons.mp hnode with h' | h'
        · exact Or.inl (Or.inr ⟨hne, h' ▸ heq⟩)
        · exact Or.inr ⟨hne, node, h', heq⟩

/-- **C3.** For every decoded leaderboard page, `extractUsernamesFromPage`
returns the usernames of the page's ranking entries with surrounding
whitespace trimmed, entries whose trimmed username is empty dropped,
duplicates kept exactly once (no duplicates in the output; a username
appears iff it is the nonempty trimmed username of some entry), and the
result sorted lexicographically; a page with zero ranking entries yields
the empty sequence. -/
theorem extractUsernamesFromPage_spec (pageResp : ResponseGlobal) :
    (pageResp.data.globalRanking.rankingNodes = [] →
      extractUsernamesFromPage pageResp = []) ∧
    (extractUsernamesFromPage pageResp).Nodup ∧
    (extractUsernamesFromPage pageResp).Sorted strLe ∧
    ∀ u, u ∈ extractUsernamesFromPage pageResp ↔
      (u ≠ "" ∧ ∃ node ∈ pageResp.data.globalRanking.rankingNodes,
        trimSpace node.user.username = u) := by
  refine ⟨fun h => ?_, ?_, ?_, fun u => ?_⟩
  · simp [extractUsernamesFromPage, collectUsernames, h, sortStrings, List.insertionSort]
  · exact sortStrings_nodup (collectFold_nodup _ [] (by simp))
  · exact sortStrings_sorted _
  · rw [extractUsernamesFromPage, mem_sortStrings, collectUsernames,
      mem_collectFold]
    simp

/-! ### Concurrent enrichment -/

theorem processFold_users (userHTTP : String → HTTPOutcome ResponseUser)
    (usernames : List String) :
    ∀ acc : List StageUserDataParams × List FetchUserErr,
      (usernames.foldl (processUsersStep userHTTP) acc).1 =
        acc.1 ++ usernames.filterMap
          (fun u => (fetchAndConvertUser userHTTP u).toOption) := by
  induction usernames with
  | nil => intro acc; simp
  | cons u us ih =>
    intro acc
    rw [List.foldl_cons, ih]
    cases hfetch : fetchAndConvertUser userHTTP u with
    | ok user =>
      simp [processUsersStep, hfetch, Except.toOption]
    | error e =>
      simp [processUsersStep, hfetch, Except.toOption]

theorem processFold_length (userHTTP : String → HTTPOutcome ResponseUser)
    (usernames : List String) :
    ∀ acc : List StageUserDataParams × List FetchUserErr,
      ((usernames.foldl (processUsersStep userHTTP) acc).1).length =
        acc.1.length + usernames.countP (fetchUserOk userHTTP) := by
  induction usernames with
  | nil => intro acc; simp
  | cons u us ih =>
    intro acc
    rw [List.foldl_cons, ih, List.countP_cons]
    cases hfetch : fetchAndConvertUser userHTTP u with
    | ok user => simp [processUsersStep, hfetch, fetchUserOk]; omega
    | error e => simp [processUsersStep, hfetch, fetchUserOk]

/-- **C2.** For every list of `N` usernames handed to the concurrent
enricher, of which `M` fail for any per-identity reason (empty username,
fetch error, GraphQL errors, identity not available, or missing "All"-tier
statistic), `processUsersConcurrently` returns a nil error, the records of
exactly the successful fetches, and hence exactly `N - M` enriched
records: per-identity failures are never raised to the caller and never
abort the batch. -/
theorem processUsersConcurrently_spec
    (userHTTP : String → HTTPOutcome ResponseUser) (usernames : List String) :
    (processUsersConcurrently userHTTP usernames).2 = none ∧
    (processUsersConcurrently userHTTP usernames).1 =
      usernames.filterMap (fun u => (fetchAndConvertUser userHTTP u).toOption) ∧
    (processUsersConcurrently userHTTP usernames).1.length =
      usernames.length - usernames.countP (fun u => ! fetchUserOk userHTTP u) := by
  refine ⟨rfl, ?_, ?_⟩
  · simpa using processFold_users userHTTP usernames ([], [])
  · have hlen := processFold_length userHTTP usernames ([], [])
    simp only [List.length_nil, Nat.zero_add] at hlen
    have hsplit := List.length_eq_countP_add_countP (fetchUserOk userHTTP) usernames
    have hcongr : usernames.countP (fun u => decide ¬ fetchUserOk userHTTP u = true) =
        usernames.countP (fun u => ! fetchUserOk userHTTP u) := by
      apply List.countP_congr
      intro a _
      simp
    show (usernames.foldl (processUsersStep userHTTP) ([], [])).1.length =
      usernames.length - usernames.countP (fun u => ! fetchUserOk userHTTP u)
    omega

/-! ### The staging merge -/

theorem mergedRow_username (old : UserDatum) (r : StageUserDataParams) (now : Nat) :
    (mergedRow old r now).username = old.username := rfl

theorem insertedRow_username (id : Nat) (r : StageUserDataParams) (now : Nat) :
    (insertedRow id r now).username = r.username := rfl

theorem mergeMap_find?_self (now : Nat) (r : StageUserDataParams) (rows : List UserDatum) :
    (rows.map (fun row =>
        if row.username == r.username then mergedRow row r now else row)).find?
        (fun row => row.username == r.username) =
      (rows.find? (fun row => row.username == r.username)).map
        (fun old => mergedRow old r now) := by
  induction rows with
  | nil => rfl
  | cons row rows ih =>
    cases h : (row.username == r.username) with
    | true =>
      rw [List.map_cons, if_pos h,
        List.find?_cons_of_pos (p := fun row : UserDatum => row.username == r.username) _
          (show ((mergedRow row r now).username == r.username) = true by
            rw [mergedRow_username]; exact h),
        List.find?_cons_of_pos (p := fun row : UserDatum => row.username == r.username) _ h]
      rfl
    | false =>
      rw [List.map_cons, if_neg (ne_true_of_eq_false h),
        List.find?_cons_of_neg (p := fun row : UserDatum => row.username == r.username) _
          (ne_true_of_eq_false h),
        List.find?_cons_of_neg (p := fun row : UserDatum => row.username == r.username) _
          (ne_true_of_eq_false h), ih]

theorem mergeMap_find?_ne (now : Nat) (r : StageUserDataParams) (u : String)
    (hne : r.username ≠ u) (rows : List UserDatum) :
    (rows.map (fun row =>
        if row.username == r.username then mergedRow row r now else row)).find?
        (fun row => row.username == u) =
      rows.find? (fun row => row.username == u) := by
  induction rows with
  | nil => rfl
  | cons row rows ih =>
    cases h : (row.username == r.username) with
    | true =>
      have hrow : row.username = r.username := eq_of_beq h
      have hrowu : (row.username == u) = false :=
        beq_eq_false_iff_ne.mpr (hrow ▸ hne)
      rw [List.map_cons, if_pos h,
        List.find?_cons_of_neg (p := fun row : UserDatum => row.username == u) _
          (ne_true_of_eq_false
            (show ((mergedRow row r now).username == u) = false by
              rw [mergedRow_username]; exact hrowu)),
        List.find?_cons_of_neg (p := fun row : UserDatum => row.username == u) _
          (ne_true_of_eq_false hrowu), ih]
    | false =>
      cases hu : (row.username == u) with
      | true =>
        rw [List.map_cons, if_neg (ne_true_of_eq_false h),
          List.find?_cons_of_pos (p := fun row : UserDatum => row.username == u) _ hu,
          List.find?_cons_of_pos (p := fun row : UserDatum => row.username == u) _ hu]
      | false =>
        rw [List.map_cons, if_neg (ne_true_of_eq_false h),
          List.find?_cons_of_neg (p := fun row : UserDatum => row.username == u) _
            (ne_true_of_eq_false hu),
          List.find?_cons_of_neg (p := fun row : UserDatum => row.username == u) _
            (ne_true_of_eq_false hu), ih]

theorem findRow_upsertRow_self (now : Nat) (table : List UserDatum × Nat)
    (r : StageUserDataParams) :
    findRow (upsertRow now table r).1 r.username =
      some (match findRow table.1 r.username with
            | some old => mergedRow old r now
            | none => insertedRow table.2 r now) := by
  unfold upsertRow
  split
  next hany =>
    rw [findRow, mergeMap_find?_self]
    rcases List.any_eq_true.mp hany with ⟨row, hrowmem, hrow⟩
    have : (table.1.find? (fun row => row.username == r.username)).isSome := by
      rw [List.find?_isSome]
      exact ⟨row, hrowmem, hrow⟩
    rcases Option.isSome_iff_exists.mp this with ⟨old, hold⟩
    rw [findRow, hold]
    rfl
  next hany =>
    have hnone : table.1.find? (fun row => row.username == r.username) = none := by
      rw [List.find?_eq_none]
      intro row hrowmem hrow
      exact hany (List.any_eq_true.mpr ⟨row, hrowmem, hrow⟩)
    unfold findRow
    rw [List.find?_append, hnone, Option.none_or,
      List.find?_cons_of_pos (p := fun row : UserDatum => row.username == r.username) _
        (show ((insertedRow table.2 r now).username == r.username) = true by
          rw [insertedRow_username]; exact beq_self_eq_true r.username)]

theorem findRow_upsertRow_ne (now : Nat) (table : List UserDatum × Nat)
    (r : StageUserDataParams) (u : String) (hne : r.username ≠ u) :
    findRow (upsertRow now table r).1 u = findRow table.1 u := by
  unfold upsertRow
  split
  next hany => exact mergeMap_find?_ne now r u hne table.1
  next hany =>
    rw [findRow, List.find?_append]
    have hins : ((insertedRow table.2 r now).username == u) = false :=
      beq_eq_false_iff_ne.mpr (by rw [insertedRow_username]; exact hne)
    simp [List.find?_cons, hins, findRow]

theorem foldUpsert_find?_notin (now : Nat) (staging : List StageUserDataParams)
    (u : String) (h : ∀ r ∈ staging, r.username ≠ u) :
    ∀ table : List UserDatum × Nat,
      findRow ((staging.foldl (upsertRow now) table)).1 u = findRow table.1 u := by
  induction staging with
  | nil => intro table; rfl
  | cons s rest ih =>
    intro table
    rw [List.foldl_cons,
      ih (fun r hr => h r (List.mem_cons_of_mem s hr)) (upsertRow now table s),
      findRow_upsertRow_ne now table s u (h s (List.mem_cons_self s rest))]

theorem foldUpsert_find?_update (now : Nat) (staging : List StageUserDataParams)
    (r : StageUserDataParams)
    (hstag : (staging.map (fun x => x.username)).Nodup) (hr : r ∈ staging) :
    ∀ (table : List UserDatum × Nat) (old : UserDatum),
      findRow table.1 r.username = some old →
      findRow ((staging.foldl (upsertRow now) table)).1 r.username =
        some (mergedRow old r now) := by
  induction staging with
  | nil => cases hr
  | cons s rest ih =>
    intro table old hold
    rw [List.map_cons, List.nodup_cons] at hstag
    rcases List.mem_cons.mp hr with heq | hmem
    · subst heq
      rw [List.foldl_cons,
        foldUpsert_find?_notin now rest r.username
          (fun x hx hcontra => hstag.1 (hcontra ▸ List.mem_map_of_mem _ hx))
          (upsertRow now table r),
        findRow_upsertRow_self now table r, hold]
    · have hne : s.username ≠ r.username := by
        intro hcontra
        exact hstag.1 (hcontra ▸ List.mem_map_of_mem _ hmem)
      rw [List.foldl_cons]
      exact ih hstag.2 hmem (upsertRow now table s) old
        ((findRow_upsertRow_ne now table s r.username hne).trans hold)

theorem foldUpsert_find?_mem (now : Nat) (staging : List StageUserDataParams)
    (r : StageUserDataParams)
    (hstag : (staging.map (fun x => x.username)).Nodup) (hr : r ∈ staging) :
    ∀ table : List UserDatum × Nat,
      ∃ row, findRow ((staging.foldl (upsertRow now) table)).1 r.username = some row ∧
        rowDataMatches row r := by
  induction staging with
  | nil => cases hr
  | cons s rest ih =>
    intro table
    rw [List.map_cons, List.nodup_cons] at hstag
    rcases List.mem_cons.mp hr with heq | hmem
    · subst heq
      rw [List.foldl_cons,
        foldUpsert_find?_notin now rest r.username
          (fun x hx hcontra => hstag.1 (hcontra ▸ List.mem_map_of_mem _ hx))
          (upsertRow now table r),
        findRow_upsertRow_self now table r]
      cases hold : findRow table.1 r.username with
      | some old =>
        refine ⟨mergedRow old r now, rfl, ?_, rfl, rfl, rfl, rfl, rfl, rfl, rfl, rfl⟩
        rw [mergedRow_username]
        exact eq_of_beq
          (List.find?_some (p := fun row : UserDatum => row.username == r.username)
            (l := table.1) hold)
      | none =>
        exact ⟨insertedRow table.2 r now, rfl, rfl, rfl, rfl, rfl, rfl, rfl, rfl, rfl, rfl⟩
    · rw [List.foldl_cons]
      exact ih hstag.2 hmem (upsertRow now table s)

theorem countP_upsertRow (now : Nat) (table : List UserDatum × Nat)
    (r : StageUserDataParams) (u : String)
    (hmem : ∃ row ∈ table.1, row.username = u) :
    (upsertRow now table r).1.countP (fun row => row.username == u) =
      table.1.countP (fun row => row.username == u) ∧
    ∃ row ∈ (upsertRow now table r).1, row.username = u := by
  unfold upsertRow
  split
  next hany =>
    constructor
    · rw [List.countP_map]
      apply List.countP_congr
      intro row hrow
      by_cases h : (row.username == r.username) = true
      · simp only [Function.comp, if_pos h, mergedRow_username]
      · simp only [Function.comp, if_neg h]
    · rcases hmem with ⟨row0, hmem0, hu0⟩
      refine ⟨if row0.username == r.username then mergedRow row0 r now else row0,
        List.mem_map_of_mem _ hmem0, ?_⟩
      by_cases h : (row0.username == r.username) = true
      · rw [if_pos h, mergedRow_username]; exact hu0
      · rw [if_neg h]; exact hu0
  next hany =>
    have hrne : (r.username == u) = false := by
      rcases hmem with ⟨row0, hmem0, hu0⟩
      apply beq_eq_false_iff_ne.mpr
      intro hcontra
      exact hany (List.any_eq_true.mpr
        ⟨row0, hmem0, by rw [hu0, hcontra]; exact beq_self_eq_true u⟩)
    constructor
    · rw [List.countP_append]
      simp [List.countP_cons, insertedRow_username, hrne]
    · rcases hmem with ⟨row0, hmem0, hu0⟩
      exact ⟨row0, List.mem_append_left _ hmem0, hu0⟩

theorem countP_foldUpsert (now : Nat) (staging : List StageUserDataParams)
    (u : String) :
    ∀ table : List UserDatum × Nat, (∃ row ∈ table.1, row.username = u) →
      ((staging.foldl (upsertRow now) table).1.countP
        (fun row => row.username == u)) =
        table.1.countP (fun row => row.username == u) := by
  induction staging with
  | nil => intro table _; rfl
  | cons s rest ih =>
    intro table hmem
    rw [List.foldl_cons, ih (upsertRow now table s) (countP_upsertRow now table s u hmem).2,
      (countP_upsertRow now table s u hmem).1]

theorem countP_username_eq_one (rows : List UserDatum) (u : String)
    (hnodup : (rows.map (fun row => row.username)).Nodup)
    (hmem : ∃ row ∈ rows, row.username = u) :
    rows.countP (fun row => row.username == u) = 1 := by
  induction rows with
  | nil => rcases hmem with ⟨row0, h0, _⟩; cases h0
  | cons row rest ih =>
    rw [List.map_cons, List.nodup_cons] at hnodup
    by_cases h : row.username = u
    · have hzero : rest.countP (fun row => row.username == u) = 0 := by
        rw [List.countP_eq_zero]
        intro row0 hrow0 hcontra
        exact hnodup.1 (by
          rw [h, ← eq_of_beq hcontra]
          exact List.mem_map_of_mem _ hrow0)
      rw [List.countP_cons, hzero, if_pos (by exact beq_iff_eq.mpr h)]
    · rcases hmem with ⟨row0, hmem0, hu0⟩
      rcases List.mem_cons.mp hmem0 with heq | hmem0'
      · exact absurd (heq ▸ hu0) h
      · rw [List.countP_cons, if_neg (by simpa using h),
          ih hnodup.2 ⟨row0, hmem0', hu0⟩]

theorem upsertUserDataTail_cases (f : UpsertFaults) (now : Nat)
    (records : List StageUserDataParams) (db : DBState) :
    (upsertUserDataTail f now records db =
        (.ok (), { userData := (mergeStaging now db.userData db.nextId records).1,
                   staging := records,
                   nextId := (mergeStaging now db.userData db.nextId records).2 }) ∧
      (records.map (fun r => r.username)).Nodup) ∨
    ∃ e, upsertUserDataTail f now records db = (.error e, db) := by
  unfold upsertUserDataTail
  split
  next hndp => exact Or.inr ⟨_, rfl⟩
  next hndp =>
    split
    next => exact Or.inr ⟨_, rfl⟩
    next =>
      split
      next => exact Or.inr ⟨_, rfl⟩
      next =>
        split
        next => exact Or.inr ⟨_, rfl⟩
        next =>
          split
          next => exact Or.inr ⟨_, rfl⟩
          next => exact Or.inl ⟨rfl, not_not.mp hndp⟩

theorem upsertUserData_cases (f : UpsertFaults) (now : Nat)
    (records : List StageUserDataParams) (db : DBState) :
    (upsertUserData f now records db =
        (.ok (), { userData := (mergeStaging now db.userData db.nextId records).1,
                   staging := records,
                   nextId := (mergeStaging now db.userData db.nextId records).2 }) ∧
      (records.map (fun r => r.username)).Nodup) ∨
    ∃ e, upsertUserData f now records db = (.error e, db) := by
  unfold upsertUserData
  split
  next => exact Or.inr ⟨_, rfl⟩
  next =>
    split
    next => exact Or.inr ⟨_, rfl⟩
    next =>
      split
      next => exact Or.inr ⟨_, rfl⟩
      next =>
        split
        next i =>
          split
          next => exact Or.inr ⟨_, rfl⟩
          next => exact upsertUserDataTail_cases f now records db
        next => exact upsertUserDataTail_cases f now records db

theorem upsertUserData_noFaults (now : Nat) (records : List StageUserDataParams)
    (db : DBState) (h : (records.map (fun r => r.username)).Nodup) :
    upsertUserData noFaults now records db =
      (.ok (), { userData := (mergeStaging now db.userData db.nextId records).1,
                 staging := records,
                 nextId := (mergeStaging now db.userData db.nextId records).2 }) := by
  unfold upsertUserData upsertUserDataTail
  simp [noFaults, h]

/-- **C1.** For every batch handed to `Storage.UpsertUserData`, the
operation is atomic at batch granularity: whenever any step (begin,
truncate of staging, bulk copy, merge, commit) fails, it returns an error
and the visible store is completely unchanged; and whenever it returns
success, every record of the batch is present in the permanent store,
merged with all its staged columns. -/
theorem upsertUserData_atomic (f : UpsertFaults) (now : Nat)
    (records : List StageUserDataParams) (db : DBState) :
    (∀ e, (upsertUserData f now records db).1 = .error e →
      (upsertUserData f now records db).2 = db) ∧
    ((upsertUserData f now records db).1 = .ok () →
      ∀ r ∈ records, ∃ row,
        findRow (upsertUserData f now records db).2.userData r.username = some row ∧
        rowDataMatches row r) := by
  rcases upsertUserData_cases f now records db with ⟨heq, hnodup⟩ | ⟨e, heq⟩
  · constructor
    · intro e h
      rw [heq] at h
      cases h
    · intro _ r hr
      rw [heq]
      exact foldUpsert_find?_mem now records r hnodup hr (db.userData, db.nextId)
  · constructor
    · intro e' h
      rw [heq]
    · intro h
      rw [heq] at h
      cases h

/-- **C10.** Calling `Storage.UpsertUserData` with an empty batch against a
healthy store succeeds: the transaction opens, the staging table is
truncated (and stays empty, as the COPY loads zero rows), the merge and the
commit run, and every row of the permanent store is left unchanged. -/
theorem upsertUserData_empty_batch (now : Nat) (db : DBState) :
    upsertUserData noFaults now [] db =
      (.ok (), { userData := db.userData, staging := [], nextId := db.nextId }) := by
  simpa [mergeStaging] using upsertUserData_noFaults now [] db (by simp)

theorem mergedRow_mergedRow (old : UserDatum) (r : StageUserDataParams)
    (t1 t2 : Nat) : mergedRow (mergedRow old r t1) r t2 = mergedRow old r t2 := rfl

/-- **C6 (amended).** For every batch containing a username already present
in the permanent store, the merge overwrites every staged (non-key) column
of that row with the staged value, preserves the row's surrogate id and
creation time, sets `updated_at` to the transaction time (the
`trg_user_data_updated` trigger), and leaves the row count for that
username at exactly one; re-applying the same batch at a later transaction
time yields the same stored row as a single application at that time —
i.e. idempotent up to the `updated_at` timestamp, which each application
refreshes. -/
theorem upsertUserData_overwrite_row (db : DBState)
    (batch : List StageUserDataParams) (r : StageUserDataParams)
    (old : UserDatum) (t1 t2 : Nat)
    (hdb : (db.userData.map (fun row => row.username)).Nodup)
    (hbatch : (batch.map (fun x => x.username)).Nodup)
    (hr : r ∈ batch)
    (hold : findRow db.userData r.username = some old) :
    (upsertUserData noFaults t1 batch db).1 = .ok () ∧
    findRow (upsertUserData noFaults t1 batch db).2.userData r.username =
      some (mergedRow old r t1) ∧
    (upsertUserData noFaults t1 batch db).2.userData.countP
      (fun row => row.username == r.username) = 1 ∧
    findRow (upsertUserData noFaults t2 batch
        (upsertUserData noFaults t1 batch db).2).2.userData r.username =
      some (mergedRow old r t2) ∧
    findRow (upsertUserData noFaults t2 batch db).2.userData r.username =
      some (mergedRow old r t2) := by
  have hok1 := upsertUserData_noFaults t1 batch db hbatch
  have hokt2 := upsertUserData_noFaults t2 batch db hbatch
  have hfind1 : findRow (mergeStaging t1 db.userData db.nextId batch).1 r.username =
      some (mergedRow old r t1) :=
    foldUpsert_find?_update t1 batch r hbatch hr (db.userData, db.nextId) old hold
  have hmem0 : ∃ row ∈ db.userData, row.username = r.username :=
    ⟨old,
      List.mem_of_find?_eq_some
        (p := fun row : UserDatum => row.username == r.username) hold,
      eq_of_beq
        (List.find?_some (p := fun row : UserDatum => row.username == r.username)
          (l := db.userData) hold)⟩
  refine ⟨by rw [hok1], by rw [hok1]; exact hfind1, ?_, ?_, ?_⟩
  · rw [hok1]
    exact (countP_foldUpsert t1 batch r.username (db.userData, db.nextId) hmem0).trans
      (countP_username_eq_one db.userData r.username hdb hmem0)
  · simp only [hok1]
    have h2 := foldUpsert_find?_update t2 batch r hbatch hr
      ((mergeStaging t1 db.userData db.nextId batch).1,
        (mergeStaging t1 db.userData db.nextId batch).2)
      (mergedRow old r t1) hfind1
    rw [mergedRow_mergedRow] at h2
    simp only [upsertUserData_noFaults _ _ _ hbatch]
    exact h2
  · simp only [hokt2]
    exact foldUpsert_find?_update t2 batch r hbatch hr (db.userData, db.nextId) old hold

/-- **C6, counterexample.** Re-applying the same batch a second time does
not reproduce the same stored row: the `trg_user_data_updated` trigger
refreshes `updated_at` on the conflict UPDATE, so re-application at
transaction time 1 of the batch first applied at time 0 changes the stored
row (its `updated_at` moves from 0 to 1). -/
theorem upsertUserData_reapply_changes_row :
    (upsertUserData noFaults 1 sampleBatch
        (upsertUserData noFaults 0 sampleBatch sampleDB).2).2.userData ≠
      (upsertUserData noFaults 0 sampleBatch sampleDB).2.userData := by decide

/-- Witness for C6: the amended claim evaluated on a concrete store and
batch (transaction times 3 and 4). -/
theorem upsertUserData_overwrite_row_witness :
    findRow (upsertUserData noFaults 3 sampleBatch sampleDB).2.userData
        sampleRecord.username = some (mergedRow sampleRow sampleRecord 3) ∧
    (upsertUserData noFaults 3 sampleBatch sampleDB).2.userData.countP
        (fun row => row.username == sampleRecord.username) = 1 ∧
    findRow (upsertUserData noFaults 4 sampleBatch
        (upsertUserData noFaults 3 sampleBatch sampleDB).2).2.userData
        sampleRecord.username = some (mergedRow sampleRow sampleRecord 4) := by
  have h := upsertUserData_overwrite_row sampleDB sampleBatch sampleRecord
    sampleRow 3 4 (by decide) (by decide) (by decide) (by decide)
  exact ⟨h.2.1, h.2.2.1, h.2.2.2.1⟩

/-- Witness for C1: on a concrete store, a merge-step fault leaves the
store unchanged, and a fault-free run merges the batch record. -/
theorem upsertUserData_atomic_witness :
    (upsertUserData mergeFailFaults 0 sampleBatch sampleDB).2 = sampleDB ∧
    ∃ row, findRow (upsertUserData noFaults 0 sampleBatch sampleDB).2.userData
        sampleRecord.username = some row ∧ rowDataMatches row sampleRecord :=
  ⟨(upsertUserData_atomic mergeFailFaults 0 sampleBatch sampleDB).1
      "merge into actual table" rfl,
   (upsertUserData_atomic noFaults 0 sampleBatch sampleDB).2 rfl
      sampleRecord (by decide)⟩

/-! ### The page loop -/

theorem pageRange_nil {s e : Int} (h : e < s) : pageRange s e = [] := by
  unfold pageRange
  have h0 : (e + 1 - s).toNat = 0 := by omega
  rw [h0]
  rfl

theorem pageRange_cons {s e : Int} (h : s ≤ e) :
    pageRange s e = s :: pageRange (s + 1) e := by
  unfold pageRange
  have h1 : (e + 1 - s).toNat = (e + 1 - (s + 1)).toNat + 1 := by omega
  rw [h1, List.range_succ_eq_map, List.map_cons, List.map_map]
  congr 1
  · simp
  · apply List.map_congr_left
    intro i _
    simp only [Function.comp_apply]
    push_cast
    omega

theorem syncLoop_none_visited (env : SyncEnv) (startPage endPage : Int)
    (firstPage : ResponseGlobal) :
    ∀ (fuel : Nat) (cur : Int) (st : SyncState) (db : DBState)
      (acc : List PageVisit),
      st.sync = true → ((endPage + 1 - cur).toNat < fuel ∨ endPage < cur) →
      (syncLoop env none startPage endPage firstPage fuel cur st db acc).2.2 =
        acc ++ (pageRange cur endPage).map
          (fun p => { page := p, fetched := (p == startPage) || fetchOk env p }) := by
  intro fuel
  induction fuel with
  | zero =>
    intro cur st db acc hsync hfuel
    rcases hfuel with hfuel | hgt
    · exact absurd hfuel (Nat.not_lt_zero _)
    · rw [pageRange_nil hgt]
      simp [syncLoop]
  | succ fuel ih =>
    intro cur st db acc hsync hfuel
    by_cases hle : cur ≤ endPage
    · simp only [syncLoop, if_neg (show ¬ (none : Option Int) = some cur by simp),
        if_pos (And.intro hsync hle)]
      have hfetched : ∀ b : Bool,
          ((cur == startPage) || fetchOk env cur) = b →
          acc ++ [{ page := cur, fetched := b }] ++
              (pageRange (cur + 1) endPage).map
                (fun p => { page := p, fetched := (p == startPage) || fetchOk env p }) =
            acc ++ (pageRange cur endPage).map
              (fun p => { page := p, fetched := (p == startPage) || fetchOk env p }) := by
        intro b hb
        rw [pageRange_cons hle, List.map_cons, hb]
        simp
      split
      next e heq =>
        have hb : ((cur == startPage) || fetchOk env cur) = false := by
          by_cases hcur : cur = startPage
          · rw [if_pos hcur] at heq
            cases heq
          · rw [if_neg hcur] at heq
            rw [beq_eq_false_iff_ne.mpr hcur, Bool.false_or]
            unfold fetchOk
            rw [heq]
        exact (ih (cur + 1) { sync := st.sync, syncingPage := cur } db
          (acc ++ [{ page := cur, fetched := false }]) hsync (by omega)).trans
          (hfetched false hb)
      next page heq =>
        have hb : ((cur == startPage) || fetchOk env cur) = true := by
          by_cases hcur : cur = startPage
          · rw [beq_iff_eq.mpr hcur, Bool.true_or]
          · rw [if_neg hcur] at heq
            rw [beq_eq_false_iff_ne.mpr hcur, Bool.false_or]
            unfold fetchOk
            rw [heq]
        exact (ih (cur + 1) { sync := st.sync, syncingPage := cur } _
          (acc ++ [{ page := cur, fetched := true }]) hsync (by omega)).trans
          (hfetched true hb)
    · simp only [syncLoop, if_neg (show ¬ (none : Option Int) = some cur by simp),
        if_neg (show ¬ (st.sync = true ∧ cur ≤ endPage) from fun hc => hle hc.2)]
      rw [pageRange_nil (by omega)]
      simp

theorem syncLoop_visited_le (env : SyncEnv) (stopAt : Option Int)
    (startPage endPage : Int) (firstPage : ResponseGlobal) :
    ∀ (fuel : Nat) (cur : Int) (st : SyncState) (db : DBState)
      (acc : List PageVisit),
      ∀ v ∈ (syncLoop env stopAt startPage endPage firstPage fuel
          cur st db acc).2.2,
        v ∈ acc ∨ v.page ≤ endPage := by
  intro fuel
  induction fuel with
  | zero =>
    intro cur st db acc v hv
    exact Or.inl hv
  | succ fuel ih =>
    intro cur st db acc v hv
    simp only [syncLoop] at hv
    generalize (if stopAt = some cur then syncOff st else st) = st1 at hv
    split at hv
    next hcond =>
      split at hv
      next =>
        rcases ih (cur + 1) _ _ _ v hv with hmem | hle
        · rcases List.mem_append.mp hmem with hmem' | hmem'
          · exact Or.inl hmem'
          · right
            rw [List.mem_singleton.mp hmem']
            exact hcond.2
        · exact Or.inr hle
      next =>
        rcases ih (cur + 1) _ _ _ v hv with hmem | hle
        · rcases List.mem_append.mp hmem with hmem' | hmem'
          · exact Or.inl hmem'
          · right
            rw [List.mem_singleton.mp hmem']
            exact hcond.2
        · exact Or.inr hle
    next => exact Or.inl hv

/-- **C7.** An error fetching the very first page of a run aborts the
entire run with an error before any page is visited or identity processed,
leaving state and store untouched; whereas once the first page is fetched,
the run finishes with a nil error and visits every page of the range — a
fetch failure on a subsequent page only marks that page as skipped
(`fetched = false`) and the run continues with the next page. -/
theorem syncLeaderboard_first_page_abort_and_skip (env : SyncEnv)
    (opts : SyncOptions) (st : SyncState) (db : DBState)
    (hsync : st.sync = true) :
    (∀ e, fetchRankingPage (env.pageHTTP (normalizeStartPage opts.startPage)) =
        .error e →
      syncLeaderboard env none opts st db =
        { state := st, db := db, visited := [], result := .error "fetch first page" }) ∧
    (∀ firstPage,
      fetchRankingPage (env.pageHTTP (normalizeStartPage opts.startPage)) =
        .ok firstPage →
      (syncLeaderboard env none opts st db).result = .ok () ∧
      (syncLeaderboard env none opts st db).visited =
        (pageRange (normalizeStartPage opts.startPage)
            (effectiveEndPage (normalizeStartPage opts.startPage) opts.pages
              firstPage.data.globalRanking.totalPages)).map
          (fun p => { page := p,
                      fetched := (p == normalizeStartPage opts.startPage) ||
                        fetchOk env p })) := by
  constructor
  · intro e h
    simp only [syncLeaderboard]
    rw [h]
  · intro firstPage h
    constructor
    · simp only [syncLeaderboard]
      rw [h]
    · have hrun : (syncLeaderboard env none opts st db).visited =
          (syncLoop env none (normalizeStartPage opts.startPage)
            (effectiveEndPage (normalizeStartPage opts.startPage) opts.pages
              firstPage.data.globalRanking.totalPages) firstPage
            ((effectiveEndPage (normalizeStartPage opts.startPage) opts.pages
                firstPage.data.globalRanking.totalPages + 2 -
              normalizeStartPage opts.startPage).toNat)
            (normalizeStartPage opts.startPage) st db []).2.2 := by
        simp only [syncLeaderboard]
        rw [h]
      rw [hrun,
        syncLoop_none_visited env (normalizeStartPage opts.startPage)
          (effectiveEndPage (normalizeStartPage opts.startPage) opts.pages
            firstPage.data.globalRanking.totalPages) firstPage _
          (normalizeStartPage opts.startPage) st db [] hsync (by omega),
        List.nil_append]

/-- Witness for C7: in a three-page run whose page 2 fetch fails on the
network, the run returns nil, page 2 is skipped, and pages 1 and 3 are
fetched. -/
theorem syncLeaderboard_page_failure_witness :
    (syncLeaderboard pageTwoFailsEnv none defaultOpts startedState
      emptyDBState).result = .ok () ∧
    (syncLeaderboard pageTwoFailsEnv none defaultOpts startedState
      emptyDBState).visited =
      [{ page := 1, fetched := true }, { page := 2, fetched := false },
       { page := 3, fetched := true }] := by
  have h := (syncLeaderboard_first_page_abort_and_skip pageTwoFailsEnv defaultOpts
    startedState emptyDBState rfl).2 (rankingPage 3) rfl
  exact ⟨h.1, h.2.trans (by decide)⟩

/-- **C9.** With normalized start page `s` and `totalPages` `T` learned from
the first fetched page: a positive `pages` option yields the effective end
page `min T (s + pages - 1)`, a non-positive one yields `T`, and no visited
page of the run lies beyond the effective end page. -/
theorem syncLeaderboard_page_bound (env : SyncEnv) (opts : SyncOptions)
    (st : SyncState) (db : DBState) (firstPage : ResponseGlobal)
    (hfp : fetchRankingPage (env.pageHTTP (normalizeStartPage opts.startPage)) =
      .ok firstPage) :
    (0 < opts.pages →
      effectiveEndPage (normalizeStartPage opts.startPage) opts.pages
          firstPage.data.globalRanking.totalPages =
        min firstPage.data.globalRanking.totalPages
          (normalizeStartPage opts.startPage + opts.pages - 1)) ∧
    (opts.pages ≤ 0 →
      effectiveEndPage (normalizeStartPage opts.startPage) opts.pages
          firstPage.data.globalRanking.totalPages =
        firstPage.data.globalRanking.totalPages) ∧
    ∀ (stopAt : Option Int) (v : PageVisit),
      v ∈ (syncLeaderboard env stopAt opts st db).visited →
      v.page ≤ effectiveEndPage (normalizeStartPage opts.startPage) opts.pages
        firstPage.data.globalRanking.totalPages := by
  refine ⟨?_, ?_, ?_⟩
  · intro hpos
    unfold effectiveEndPage
    split
    next hcond => omega
    next hcond => omega
  · intro hneg
    unfold effectiveEndPage
    split
    next hcond => omega
    next hcond => rfl
  · intro stopAt v hv
    simp only [syncLeaderboard] at hv
    rw [hfp] at hv
    rcases syncLoop_visited_le env stopAt (normalizeStartPage opts.startPage)
      (effectiveEndPage (normalizeStartPage opts.startPage) opts.pages
        firstPage.data.globalRanking.totalPages) firstPage _
      (normalizeStartPage opts.startPage) st db [] v hv with hmem | hle
    · cases hmem
    · exact hle

/-- Witness for C9: a five-page upstream with `startPage = 2` and
`pages = 2` is bounded at page `min 5 (2 + 2 - 1) = 3`, and no visited page
exceeds 3. -/
theorem syncLeaderboard_page_bound_witness :
    effectiveEndPage 2 2 5 = 3 ∧
    ∀ v ∈ (syncLeaderboard fivePagesEnv none boundedOpts startedState
        emptyDBState).visited, v.page ≤ 3 := by
  have h := syncLeaderboard_page_bound fivePagesEnv boundedOpts startedState
    emptyDBState (rankingPage 5) rfl
  exact ⟨(h.1 (by decide)).trans (by decide), fun v hv => h.2.2 none v hv⟩

/-- **C4 (code-bug evidence).** A run that ends naturally — here a clean
one-page run, started from a state with the admission flag on — returns
nil and keeps `sync = true`: the status query still reports the run as
active (`isOn = true`), so the controller does not return to Idle on
natural completion.  The page cursor does retain the last processed page
(1), and only an explicit `SyncOff` afterwards yields an Idle status with
the retained cursor. -/
theorem syncLeaderboard_natural_completion_keeps_flag_on :
    (syncLeaderboard onePageEnv none defaultOpts startedState
      emptyDBState).result = .ok () ∧
    (syncLeaderboard onePageEnv none defaultOpts startedState
      emptyDBState).state = { sync := true, syncingPage := 1 } ∧
    (getSyncStatus (syncLeaderboard onePageEnv none defaultOpts startedState
      emptyDBState).state).isOn = true ∧
    getSyncStatus (syncOff (syncLeaderboard onePageEnv none defaultOpts
      startedState emptyDBState).state) = { isOn := false, page := 1 } :=
  ⟨rfl, rfl, rfl, rfl⟩

/-- **C5.** A start command received while a run is already active is
rejected with 400 "syncing is already on" — it is not queued, no run is
launched, and the service state (including the page cursor of the run in
progress) is returned unchanged. -/
theorem handlerSyncLeaderboard_already_running (st : SyncState)
    (req : StartSyncingReq) (h : st.sync = true) :
    handlerSyncLeaderboard st req = (st, .badRequest "syncing is already on") := by
  unfold handlerSyncLeaderboard
  rw [if_pos (show (getSyncStatus st).isOn = true from h)]

/-- Witness for C5: rejecting a start against an active run at page 7
leaves the state at page 7 with the flag on. -/
theorem handlerSyncLeaderboard_already_running_witness :
    handlerSyncLeaderboard { sync := true, syncingPage := 7 } { page := 3 } =
      ({ sync := true, syncingPage := 7 }, .badRequest "syncing is already on") :=
  handlerSyncLeaderboard_already_running
    { sync := true, syncingPage := 7 } { page := 3 } rfl

/-- **C8, counterexample.** The claim "fails with a transport error exactly
on non-2xx HTTP status or network failure" is false: `doGraphQL` compares
the status against 200 (not against the 2xx class), so a 204 response with
a well-formed error-free body — 2xx and no network failure, which under the
claim would have to return the decoded page — fails with a transport
error. -/
theorem fetchRankingPage_2xx_transport :
    isTransportErr (fetchRankingPage status204Outcome) = true ∧
    is2xxResp status204Outcome = true ∧
    isNetFail status204Outcome = false := by
  refine ⟨rfl, by decide, rfl⟩

/-- **C8 (amended).** Taxonomy of `fetchRankingPage` over every HTTP
outcome: a transport error exactly on network failure or on a response
whose body decompresses but whose status differs from exactly 200 (thus
also on non-200 2xx statuses); a decode error exactly on a body that fails
decompression (whatever the status, since decompression precedes the
status check) or on a malformed payload under status 200; an upstream
error carrying the GraphQL error list exactly when the status-200 envelope
decodes with a non-empty error list; and the decoded page exactly on a
status-200 well-formed envelope with no errors. -/
theorem fetchRankingPage_taxonomy (o : HTTPOutcome ResponseGlobal) :
    ((∃ msg, fetchRankingPage o = .error (.transport msg)) ↔
      (∃ msg, o = .netFail msg) ∨
      (∃ s body, o = .resp s body ∧ s ≠ 200 ∧
        ∀ msg, body ≠ .decompressFail msg)) ∧
    ((∃ msg, fetchRankingPage o = .error (.decode msg)) ↔
      (∃ s msg, o = .resp s (.decompressFail msg)) ∨
      (∃ msg, o = .resp 200 (.malformed msg))) ∧
    (∀ errs, fetchRankingPage o = .error (.upstream errs) ↔
      ∃ out, o = .resp 200 (.wellFormed out) ∧ out.errors = errs ∧ errs ≠ []) ∧
    (∀ out, fetchRankingPage o = .ok out ↔
      o = .resp 200 (.wellFormed out) ∧ out.errors = []) := by
  cases o with
  | netFail msg =>
    refine ⟨?_, ?_, ?_, ?_⟩
    · simp [fetchRankingPage, doGraphQL]
    · simp [fetchRankingPage, doGraphQL]
    · simp [fetchRankingPage, doGraphQL]
    · simp [fetchRankingPage, doGraphQL]
  | resp s body =>
    cases body with
    | decompressFail msg =>
      refine ⟨?_, ?_, ?_, ?_⟩
      · simp [fetchRankingPage, doGraphQL]
      · simp [fetchRankingPage, doGraphQL]
      · simp [fetchRankingPage, doGraphQL]
      · simp [fetchRankingPage, doGraphQL]
    | malformed msg =>
      by_cases hs : s = 200
      · subst hs
        refine ⟨?_, ?_, ?_, ?_⟩
        · simp [fetchRankingPage, doGraphQL]
        · simp [fetchRankingPage, doGraphQL]
        · simp [fetchRankingPage, doGraphQL]
        · simp [fetchRankingPage, doGraphQL]
      · refine ⟨?_, ?_, ?_, ?_⟩
        · simp only [fetchRankingPage, doGraphQL, if_pos hs]
          constructor
          · intro _
            exact Or.inr ⟨s, .malformed msg, rfl, hs, fun m => by simp⟩
          · intro _
            exact ⟨"non-200: " ++ toString s, rfl⟩
        · simp [fetchRankingPage, doGraphQL, hs]
        · simp [fetchRankingPage, doGraphQL, hs]
        · simp [fetchRankingPage, doGraphQL, hs]
    | wellFormed out =>
      by_cases hs : s = 200
      · subst hs
        by_cases herr : out.errors = []
        · have hval : fetchRankingPage (.resp 200 (.wellFormed out)) = .ok out := by
            simp [fetchRankingPage, doGraphQL, herr]
          refine ⟨?_, ?_, ?_, ?_⟩
          · rw [hval]; simp
          · rw [hval]; simp
          · intro errs
            rw [hval]
            simp
            exact fun h => h ▸ herr
          · intro out'
            rw [hval]
            constructor
            · intro hok
              cases hok
              exact ⟨rfl, herr⟩
            · rintro ⟨hresp, _⟩
              cases hresp
              rfl
        · have hval : fetchRankingPage (.resp 200 (.wellFormed out)) =
              .error (.upstream out.errors) := by
            simp [fetchRankingPage, doGraphQL, herr]
          refine ⟨?_, ?_, ?_, ?_⟩
          · rw [hval]; simp
          · rw [hval]; simp
          · intro errs
            rw [hval]
            constructor
            · intro heq
              cases heq
              exact ⟨out, rfl, rfl, herr⟩
            · rintro ⟨out', hresp, herrs, hne⟩
              cases hresp
              cases herrs
              rfl
          · intro out'
            rw [hval]
            simp
            exact fun h => by subst h; exact herr
      · refine ⟨?_, ?_, ?_, ?_⟩
        · simp only [fetchRankingPage, doGraphQL, if_pos hs]
          constructor
          · intro _
            exact Or.inr ⟨s, .wellFormed out, rfl, hs, fun m => by simp⟩
          · intro _
            exact ⟨"non-200: " ++ toString s, rfl⟩
        · simp [fetchRankingPage, doGraphQL, hs]
        · simp [fetchRankingPage, doGraphQL, hs]
        · simp [fetchRankingPage, doGraphQL, hs]

/-- Witness for C3: a page with zero ranking entries yields the empty
sequence. -/
theorem extractUsernamesFromPage_spec_witness :
    extractUsernamesFromPage (rankingPage 0) = [] :=
  (extractUsernamesFromPage_spec (rankingPage 0)).1 rfl

end LeetcodeRanking
